import Mathlib

/-!
Verification of the chunk-planning, dispatch and reduction engine of
`coffea.processor.executor` against its natural-language specification.

The Python source is shallowly embedded: pure control flow becomes Lean
functions, Python integers become `Nat`, raised exceptions become
`Except String` errors, and the generator loops of `FileMeta.chunks` and
`_futures_handler` become fuel-bounded / oracle-driven recursions whose
fuel provably suffices.
-/

deriving instance DecidableEq for Except

namespace Coffea

/-- Python's builtin `round` applied to the exact rational `a / b`
(round half to even, a.k.a. banker's rounding), as used in
`FileMeta.chunks`: `n = max(round(numentries / target_chunksize), 1)`.
For `b = 0` Python would raise; callers only use `b > 0`. -/
def pyRound (a b : Nat) : Nat :=
  let d := a / b
  let r := a % b
  if 2 * r < b then d
  else if b < 2 * r then d + 1
  else if d % 2 = 0 then d else d + 1

/-- `math.ceil(a / b)` on the exact rational, for `b > 0`. -/
def ceilDiv (a b : Nat) : Nat := (a + b - 1) / b

/-- Model of a populated `FileMeta` (`executor.py` lines 48-81): the
fields of the metadata map that chunk planning reads.  `clusters = none`
models a descriptor that is not cluster-populated. -/
structure FileMeta where
  dataset : String
  filename : String
  treename : String
  numentries : Nat
  clusters : Option (List Nat)
deriving DecidableEq, Repr

/-- Model of `WorkItem` (`executor.py` lines 130-159) restricted to the
fields the claims mention; `fileuuid`/`usermeta` are carried along by the
planner unchanged and are omitted. -/
structure WorkItem where
  dataset : String
  filename : String
  treename : String
  entrystart : Nat
  entrystop : Nat
deriving DecidableEq, Repr

/-- The even-split `while start < numentries` loop of `FileMeta.chunks`
(lines 113-127).  `fuel` bounds the number of iterations (each iteration
advances `start` by at least one when `actual > 0`, so fuel `numentries`
always suffices); `feedback i` models the value sent into the generator
after the `i`-th yield (`next_chunksize`), where `none` and `some 0`
are Python-falsy and leave the width unchanged. -/
def chunksGo (numentries : Nat) (dynamic : Bool) (feedback : Nat → Option Nat) :
    Nat → Nat → Nat → Nat → List (Nat × Nat)
  | 0, _, _, _ => []
  | fuel + 1, actual, start, i =>
    if start < numentries then
      (start, min numentries (start + actual)) ::
        chunksGo numentries dynamic feedback fuel
          (if dynamic && (feedback i).getD 0 != 0 then (feedback i).getD 0 else actual)
          (min numentries (start + actual)) (i + 1)
    else []

/-- The even-split branch of `FileMeta.chunks` (lines 109-127):
`n = max(round(numentries/target), 1)`, `actual = ceil(numentries/n)`,
then consecutive windows of width `actual` (the last one clipped). -/
def evenSplitChunks (numentries target : Nat) (dynamic : Bool)
    (feedback : Nat → Option Nat) : List (Nat × Nat) :=
  let n := max (pyRound numentries target) 1
  let actual := ceilDiv numentries n
  chunksGo numentries dynamic feedback numentries actual 0 0

/-- The `for c in clusters` accumulation loop of the cluster-aligned
branch (lines 94-96): append `c` whenever `c >= chunks[-1] + target`;
`last` carries `chunks[-1]`. -/
def clusterScan (target : Nat) : List Nat → Nat → List Nat
  | [], _ => []
  | c :: cs, last =>
    if last + target ≤ c then c :: clusterScan target cs c
    else clusterScan target cs last

/-- The full cluster boundary list of lines 93-98: start from `[0]`, run
the scan, then append the final cluster boundary if it is not already
last.  Callers guarantee `clusters` is nonempty (Python would raise
`IndexError` on `clusters[-1]` otherwise). -/
def clusterBoundaries (clusters : List Nat) (target : Nat) : List Nat :=
  let body := 0 :: clusterScan target clusters 0
  if clusters.getLastD 0 = body.getLastD 0 then body
  else body ++ [clusters.getLastD 0]

/-- The emitted `(start, stop)` pairs of the cluster-aligned branch
(line 99): `zip(chunks[:-1], chunks[1:])`. -/
def clusterChunks (clusters : List Nat) (target : Nat) : List (Nat × Nat) :=
  (clusterBoundaries clusters target).zip (clusterBoundaries clusters target).tail

/-- `FileMeta.chunks` (lines 83-127).  Raised exceptions are modelled as
`Except.error`; the generator's `send` channel is the `feedback`
function. -/
def FileMeta.chunks (fm : FileMeta) (target : Nat) (alignClusters dynamic : Bool)
    (feedback : Nat → Option Nat) : Except String (List WorkItem) :=
  if alignClusters && dynamic then
    .error "align_clusters cannot be used with a dynamic chunksize."
  else if alignClusters then
    match fm.clusters with
    | none => .error "RuntimeError"
    | some [] => .error "IndexError"
    | some (c :: cs) =>
      .ok ((clusterChunks (c :: cs) target).map fun p =>
        ⟨fm.dataset, fm.filename, fm.treename, p.1, p.2⟩)
  else
    .ok ((evenSplitChunks fm.numentries target dynamic feedback).map fun p =>
      ⟨fm.dataset, fm.filename, fm.treename, p.1, p.2⟩)

/-- `tilesFrom E start ps` says the ranges `ps` tile the interval
`[start, E)` exactly once, in increasing order, with no gaps and no
overlaps: each range begins where the previous one stopped, is nonempty,
and the last one stops at `E`. -/
def tilesFrom (E : Nat) : Nat → List (Nat × Nat) → Prop
  | start, [] => start = E
  | start, (s, t) :: rest => s = start ∧ start < t ∧ tilesFrom E t rest

/-- The `maxchunks is None` branch of `_chunk_generator` (lines 983-985):
`yield from filemeta.chunks(...)` for every descriptor in order. -/
def chunkGenAll (chunksize : Nat) (alignClusters dynamic : Bool)
    (feedback : Nat → Option Nat) : List FileMeta → Except String (List WorkItem)
  | [] => .ok []
  | fm :: rest => do
    let xs ← fm.chunks chunksize alignClusters dynamic feedback
    let ys ← chunkGenAll chunksize alignClusters dynamic feedback rest
    .ok (xs ++ ys)

/-- The `maxchunks` branch of `_chunk_generator` (lines 987-1000):
`nchunks` is the per-dataset counter (`defaultdict(int)`); a file whose
dataset already reached `maxchunks` is skipped, otherwise its chunks are
taken until the dataset counter reaches `maxchunks` (the inner `break`),
always with `dynamic_chunksize=False`. -/
def chunkGenMax (chunksize : Nat) (alignClusters : Bool) (maxchunks : Nat) :
    List FileMeta → (String → Nat) → Except String (List WorkItem)
  | [], _ => .ok []
  | fm :: rest, nchunks =>
    if maxchunks ≤ nchunks fm.dataset then
      chunkGenMax chunksize alignClusters maxchunks rest nchunks
    else
      match fm.chunks chunksize alignClusters false (fun _ => none) with
      | .error e => .error e
      | .ok xs =>
        match chunkGenMax chunksize alignClusters maxchunks rest
            (fun d => if d = fm.dataset then
                nchunks d + (xs.take (maxchunks - nchunks fm.dataset)).length
              else nchunks d) with
        | .error e => .error e
        | .ok ys => .ok (xs.take (maxchunks - nchunks fm.dataset) ++ ys)

/-- `_chunk_generator` (lines 974-1000). -/
def chunk_generator (fileset : List FileMeta) (chunksize : Nat)
    (alignClusters : Bool) (maxchunks : Option Nat) (dynamic : Bool)
    (feedback : Nat → Option Nat) : Except String (List WorkItem) :=
  match maxchunks with
  | none => chunkGenAll chunksize alignClusters dynamic feedback fileset
  | some m => chunkGenMax chunksize alignClusters m fileset (fun _ => 0)

/-- `iterative_executor` (lines 360-387).  The accumulator merge
(`accumulate`, from the accumulator module, out of `src/`) is an abstract
parameter; a faithful trace of which items `function` is applied to is
returned alongside the result, to express "never invokes fn". -/
def iterative_executor {α β γ : Type} (merge : γ → β → γ)
    (items : List α) (function : α → β) (accumulator : γ) : γ × List α :=
  if items.length = 0 then (accumulator, [])
  else ((items.map function).foldl merge accumulator, items)

/-- `futures_executor` (lines 390-454) at the same level of abstraction:
the guard `if len(items) == 0: return accumulator` precedes pool
construction, submission and compression; the nonempty branch drains
all submitted futures through the completion handler and accumulates. -/
def futures_executor {α β γ : Type} (merge : γ → β → γ)
    (items : List α) (function : α → β) (accumulator : γ) : γ × List α :=
  if items.length = 0 then (accumulator, [])
  else ((items.map function).foldl merge accumulator, items)

/-- `_reduce.__call__` (lines 195-210).  `comp`/`decomp` stand for
`_compress`/`_decompress` (lz4 + pickle, external libraries);
`accfold l a` models `accumulate(l, a)` and `accplain` the
uncompressed one-argument `accumulate(items)` (the accumulator module is
out of `src/`).  `items.pop()` removes the last element, which becomes
the running accumulator. -/
def reduce_call {γ π : Type} (clevel : Option Nat) (comp : γ → π)
    (decomp : π → γ) (accfold : List γ → γ → γ) (accplain : List π → π)
    (items : List π) : Except String π :=
  match items.getLast?, clevel with
  | none, _ => .error "Empty list provided to reduction"
  | some last, some _ =>
    .ok (comp (accfold (items.dropLast.map decomp) (decomp last)))
  | some _, none => .ok (accplain items)

/-- What one attempt of the body of `_work_function`'s retry loop can do:
return a result, raise an `OSError` (authentication or not), or raise any
other exception. -/
inductive Attempt (γ : Type) where
  | success (v : γ)
  | ioError (auth : Bool)
  | otherError
deriving DecidableEq, Repr

/-- How `_work_function` can leave its retry loop. -/
inductive WorkResult (γ : Type) where
  /-- `return {"out": out}` with `out` bound to the processed result. -/
  | ok (v : γ)
  /-- the `OSError` is re-raised (`skipbadfiles` false or auth failure). -/
  | raisedOS (auth : Bool)
  /-- a non-`OSError` exception is re-raised on the final attempt. -/
  | raisedOther
  /-- the skip path executes `return {"out": out}` with local `out`
  never assigned (the body failed before `out = ...`): Python raises
  `NameError`/`UnboundLocalError`. -/
  | nameErrorOut
  /-- `while retry_count <= retries` exits; implicit `return None`. -/
  | noneReturn
deriving DecidableEq, Repr

/-- The retry loop of `_work_function` (lines 711-836).  `att k` is the
outcome of the body on attempt `k`; fuel counts the remaining loop
iterations (`retries + 1` at entry).  On `OSError`: propagate unless
skippable; otherwise warn, and — unless `use_dataframes` — immediately
execute `return {"out": out}`, which hits the unbound local `out`.  On
any other exception: re-raise iff `retries == retry_count`, else retry. -/
def workFunctionGo {γ : Type} (skipbadfiles useDataframes : Bool) (retries : Nat)
    (att : Nat → Attempt γ) : Nat → Nat → WorkResult γ
  | 0, _ => .noneReturn
  | fuel + 1, k =>
    match att k with
    | .success v => .ok v
    | .ioError a =>
      if !skipbadfiles || a then .raisedOS a
      else if !useDataframes then .nameErrorOut
      else workFunctionGo skipbadfiles useDataframes retries att fuel (k + 1)
    | .otherError =>
      if retries = k then .raisedOther
      else workFunctionGo skipbadfiles useDataframes retries att fuel (k + 1)

/-- `_work_function` (lines 693-836), abstracted over what each attempt
of the body does. -/
def work_function {γ : Type} (skipbadfiles useDataframes : Bool) (retries : Nat)
    (att : Nat → Attempt γ) : WorkResult γ :=
  workFunctionGo skipbadfiles useDataframes retries att (retries + 1) 0

/-- Observable outcome of `_futures_handler`: the results yielded in
completion order, whether the zero-progress warning fired, and the
futures cancelled in the `finally` block. -/
structure HandlerOut (γ : Type) where
  yielded : List γ
  warnedStall : Bool
  cancelled : List Nat
deriving DecidableEq, Repr

/-- `_futures_handler` (lines 221-259), driven by an oracle: `waits` is
the sequence of completion batches returned by successive
`concurrent.futures.wait(..., timeout, FIRST_COMPLETED)` calls; a batch
with no pending member models a wait period elapsing with zero
completions (timeout), upon which the handler warns, breaks out of the
loop, and the `finally` block cancels everything still pending.  An
exhausted oracle means no pending future ever completes again, so every
subsequent wait times out.  `res f` is `f.result()`. -/
def futuresHandler {γ : Type} (res : Nat → γ) :
    List (List Nat) → List Nat → HandlerOut γ
  | _, [] => ⟨[], false, []⟩
  | [], pending => ⟨[], true, pending⟩
  | batch :: waits, pending =>
    let done := pending.filter (· ∈ batch)
    let remaining := pending.filter (· ∉ batch)
    if done.isEmpty then ⟨[], true, pending⟩
    else
      let out := futuresHandler res waits remaining
      ⟨done.map res ++ out.yielded, out.warnedStall, out.cancelled⟩

/-- The tail of `run_uproot_job` (lines 1003-1232) relevant to empty
input, with the sequential executor plugged in: an empty fileset
normalizes to no descriptors, the chunk generator yields no work items,
`executor(chunks, closure, None)` returns the seed `None` untouched, and
then `wrapped_out["out"]` subscripts `None`.  The per-chunk closure
`workFn`, the accumulator merge and the `"out"` projection are abstract;
the list of work items actually dispatched is returned as the trace. -/
def run_uproot_job {γ δ : Type} (merge : Option δ → δ → Option δ)
    (fileset : List FileMeta) (chunksize : Nat) (alignClusters : Bool)
    (maxchunks : Option Nat) (workFn : WorkItem → δ) (getOut : δ → γ) :
    Except String γ × List WorkItem :=
  match chunk_generator fileset chunksize alignClusters maxchunks false
      (fun _ => none) with
  | .error e => (.error e, [])
  | .ok chunks =>
    let r := iterative_executor merge chunks workFn (none : Option δ)
    match r.1 with
    | none => (.error "TypeError: NoneType object is not subscriptable", r.2)
    | some d => (.ok (getOut d), r.2)

/-! ## Supporting lemmas for the even-split planner -/

/-- Every window emitted by the non-dynamic even-split loop has width at
most `actual`. -/
lemma chunksGo_width (E : Nat) (fb : Nat → Option Nat) :
    ∀ (fuel actual start i : Nat), ∀ p ∈ chunksGo E false fb fuel actual start i,
      p.2 - p.1 ≤ actual := by
  intro fuel
  induction fuel with
  | zero => intro actual start i p hp; simp [chunksGo] at hp
  | succ fuel ih =>
    intro actual start i p hp
    simp only [chunksGo, Bool.false_and, Bool.false_eq_true, if_false] at hp
    by_cases h : start < E
    · rw [if_pos h] at hp
      rcases List.mem_cons.mp hp with h1 | h2
      · subst h1; simp; omega
      · exact ih actual _ _ p h2
    · rw [if_neg h] at hp
      simp at hp

/-- The non-dynamic even-split loop tiles `[start, E)` whenever the
window width is positive and the fuel covers the remaining entries. -/
lemma chunksGo_tilesFrom (E : Nat) (fb : Nat → Option Nat) :
    ∀ (fuel actual start i : Nat), 1 ≤ actual → start ≤ E → E ≤ start + fuel →
      tilesFrom E start (chunksGo E false fb fuel actual start i) := by
  intro fuel
  induction fuel with
  | zero =>
    intro actual start i hact hle hfuel
    have : start = E := by omega
    simp [chunksGo, tilesFrom, this]
  | succ fuel ih =>
    intro actual start i hact hle hfuel
    simp only [chunksGo, Bool.false_and, Bool.false_eq_true, if_false]
    by_cases h : start < E
    · rw [if_pos h]
      refine ⟨rfl, by omega, ?_⟩
      exact ih actual (min E (start + actual)) (i + 1) hact (by omega) (by omega)
    · rw [if_neg h]
      have : start = E := by omega
      simp [tilesFrom, this]

/-- Claim C1: for every populated descriptor with `numentries = E` and
positive target chunk size `T`, even-split planning (`align_clusters`
false, no dynamic resizing) produces Work Units whose
`(entrystart, entrystop)` ranges tile `[0, E)` exactly once, in
increasing order, with no gaps or overlaps, and every unit has
`entrystop - entrystart ≤ ceil(E / max(round(E/T), 1))` (with `round`
being Python's round-half-to-even). -/
theorem even_split_tiles (fm : FileMeta) (T : Nat) (fb : Nat → Option Nat)
    (_hT : 0 < T) :
    ∃ l, fm.chunks T false false fb = .ok l ∧
      tilesFrom fm.numentries 0 (l.map fun w => (w.entrystart, w.entrystop)) ∧
      ∀ w ∈ l, w.entrystop - w.entrystart ≤
        ceilDiv fm.numentries (max (pyRound fm.numentries T) 1) := by
  refine ⟨_, rfl, ?_, ?_⟩
  · show tilesFrom fm.numentries 0
      (((evenSplitChunks fm.numentries T false fb).map fun p =>
          (⟨fm.dataset, fm.filename, fm.treename, p.1, p.2⟩ : WorkItem)).map
        fun w => (w.entrystart, w.entrystop))
    rw [List.map_map]
    have hmap : ((fun (w : WorkItem) => (w.entrystart, w.entrystop)) ∘
        fun (p : Nat × Nat) =>
          (⟨fm.dataset, fm.filename, fm.treename, p.1, p.2⟩ : WorkItem))
        = id := by
      funext p; rfl
    rw [hmap, List.map_id]
    unfold evenSplitChunks
    rcases Nat.eq_zero_or_pos fm.numentries with hE | hE
    · rw [hE]; simp [chunksGo, tilesFrom]
    · apply chunksGo_tilesFrom
      · have hn : 1 ≤ max (pyRound fm.numentries T) 1 := le_max_right _ _
        unfold ceilDiv
        rw [Nat.le_div_iff_mul_le (by omega)]
        omega
      · omega
      · omega
  · intro w hw
    simp only [List.mem_map] at hw
    obtain ⟨p, hp, rfl⟩ := hw
    exact chunksGo_width fm.numentries fb _ _ _ _ p hp

/-- Witness for C1 at a concrete populated descriptor. -/
theorem even_split_tiles_witness :
    0 < 100000 ∧
    ∃ l, FileMeta.chunks ⟨"ds", "a.root", "Events", 250000, none⟩ 100000 false
        false (fun _ => none) = .ok l ∧
      tilesFrom 250000 0 (l.map fun w => (w.entrystart, w.entrystop)) ∧
      ∀ w ∈ l, w.entrystop - w.entrystart ≤
        ceilDiv 250000 (max (pyRound 250000 100000) 1) :=
  ⟨by decide,
    even_split_tiles ⟨"ds", "a.root", "Events", 250000, none⟩ 100000
      (fun _ => none) (by decide)⟩

/-! ## The 250000/50000-entry end-to-end plan (claim C2)

Python's `round` rounds half to even, so `round(250000 / 100000) =
round(2.5) = 2`: the 250000-entry file is split into two windows of
width `ceil(250000 / 2) = 125000`, not three windows of width 83334. -/

/-- Counterexample to claim C2: planning the two-file set with
`numentries = [250000, 50000]` and `chunksize = 100000` in even-split
mode does not produce the four claimed Work Units
`[0,83334), [83334,166667), [166667,250000)` plus `[0,50000)`. -/
theorem chunk_plan_250k_counterexample :
    chunk_generator
        [⟨"ds", "a.root", "Events", 250000, none⟩,
         ⟨"ds", "b.root", "Events", 50000, none⟩]
        100000 false none false (fun _ => none)
      ≠ .ok
        [⟨"ds", "a.root", "Events", 0, 83334⟩,
         ⟨"ds", "a.root", "Events", 83334, 166667⟩,
         ⟨"ds", "a.root", "Events", 166667, 250000⟩,
         ⟨"ds", "b.root", "Events", 0, 50000⟩] := by
  decide

/-- Claim C2 as amended: the same file set yields exactly three Work
Units — `round(2.5) = 2` under Python's banker's rounding, so the first
file is split as `[0,125000), [125000,250000)`, and the second file
yields the single unit `[0,50000)`. -/
theorem chunk_plan_250k_amended :
    chunk_generator
        [⟨"ds", "a.root", "Events", 250000, none⟩,
         ⟨"ds", "b.root", "Events", 50000, none⟩]
        100000 false none false (fun _ => none)
      = .ok
        [⟨"ds", "a.root", "Events", 0, 125000⟩,
         ⟨"ds", "a.root", "Events", 125000, 250000⟩,
         ⟨"ds", "b.root", "Events", 0, 50000⟩] := by
  rfl

/-! ## Supporting lemmas for the cluster-aligned planner -/

/-- `getLastD` of a nonempty list ignores the default. -/
lemma getLastD_cons_irrel (a b d : Nat) (l : List Nat) :
    (d :: l).getLastD a = (d :: l).getLastD b := by
  rw [List.getLastD_cons, List.getLastD_cons]

/-- `getLastD` of a nonempty list is a member. -/
lemma getLastD_cons_mem (c : Nat) (cs : List Nat) : (c :: cs).getLastD 0 ∈ c :: cs := by
  induction cs generalizing c with
  | nil => simp
  | cons d ds ih =>
    rw [List.getLastD_cons, getLastD_cons_irrel c 0]
    exact List.mem_cons_of_mem c (ih d)

/-- Every boundary appended by the cluster scan is a cluster. -/
lemma clusterScan_subset (target : Nat) :
    ∀ (cl : List Nat) (last : Nat), ∀ x ∈ clusterScan target cl last, x ∈ cl := by
  intro cl
  induction cl with
  | nil => intro last x hx; simp [clusterScan] at hx
  | cons c cs ih =>
    intro last x hx
    rw [clusterScan] at hx
    by_cases h : last + target ≤ c
    · rw [if_pos h] at hx
      rcases List.mem_cons.mp hx with h1 | h2
      · exact h1 ▸ List.mem_cons_self c cs
      · exact List.mem_cons_of_mem c (ih c x h2)
    · rw [if_neg h] at hx
      exact List.mem_cons_of_mem c (ih last x hx)

/-- The cluster boundary list starts at the hard-coded `0` and every
later boundary is a member of the cluster list. -/
lemma clusterBoundaries_cons (c : Nat) (cs : List Nat) (target : Nat) :
    ∃ rest, clusterBoundaries (c :: cs) target = 0 :: rest ∧
      ∀ x ∈ rest, x ∈ c :: cs := by
  unfold clusterBoundaries
  by_cases h : (c :: cs).getLastD 0 = (0 :: clusterScan target (c :: cs) 0).getLastD 0
  · rw [if_pos h]
    exact ⟨_, rfl, fun x hx => clusterScan_subset target _ _ x hx⟩
  · rw [if_neg h]
    refine ⟨clusterScan target (c :: cs) 0 ++ [(c :: cs).getLastD 0], rfl, ?_⟩
    intro x hx
    rcases List.mem_append.mp hx with h1 | h2
    · exact clusterScan_subset target _ _ x h1
    · rw [List.mem_singleton.mp h2]
      exact getLastD_cons_mem c cs

/-- The last boundary always equals the last cluster (lines 97-98 force
this by appending `clusters[-1]` when it is not already last). -/
lemma clusterBoundaries_getLastD (cl : List Nat) (target : Nat) :
    (clusterBoundaries cl target).getLastD 0 = cl.getLastD 0 := by
  unfold clusterBoundaries
  by_cases h : cl.getLastD 0 = (0 :: clusterScan target cl 0).getLastD 0
  · rw [if_pos h]; exact h.symm
  · rw [if_neg h]
    exact List.getLastD_concat 0 (cl.getLastD 0) (0 :: clusterScan target cl 0)

/-- Claim C7 as amended: for a cluster-populated descriptor (nonempty
cluster list whose last element is `numentries > 0`), cluster-aligned
planning produces a nonempty unit list in which every `entrystop` is a
member of the cluster list, every `entrystart` is `0` or a member of the
cluster list, and the final unit's `entrystop` equals `numentries`. -/
theorem cluster_aligned_boundaries (fm : FileMeta) (c : Nat) (cs : List Nat)
    (target : Nat) (hcl : fm.clusters = some (c :: cs))
    (hlast : (c :: cs).getLastD 0 = fm.numentries)
    (hpos : 0 < fm.numentries) :
    ∃ l, fm.chunks target true false (fun _ => none) = .ok l ∧
      (∀ w ∈ l, (w.entrystart = 0 ∨ w.entrystart ∈ c :: cs) ∧
        w.entrystop ∈ c :: cs) ∧
      l ≠ [] ∧ (l.map fun w => w.entrystop).getLastD 0 = fm.numentries := by
  have hch : fm.chunks target true false (fun _ => none)
      = .ok ((clusterChunks (c :: cs) target).map fun p =>
          ⟨fm.dataset, fm.filename, fm.treename, p.1, p.2⟩) := by
    simp [FileMeta.chunks, hcl]
  obtain ⟨rest, hbl, hrest⟩ := clusterBoundaries_cons c cs target
  have hblast : (clusterBoundaries (c :: cs) target).getLastD 0 = fm.numentries := by
    rw [clusterBoundaries_getLastD, hlast]
  have hrest_last : rest.getLastD 0 = fm.numentries := by
    rw [hbl, List.getLastD_cons] at hblast; exact hblast
  have hrest_ne : rest ≠ [] := by
    intro h0
    rw [h0] at hrest_last
    simp [List.getLastD] at hrest_last
    omega
  obtain ⟨r, rs, rfl⟩ := List.exists_cons_of_ne_nil hrest_ne
  refine ⟨_, hch, ?_, ?_, ?_⟩
  · intro w hw
    simp only [List.mem_map] at hw
    obtain ⟨p, hp, rfl⟩ := hw
    have hp' : p ∈ (clusterBoundaries (c :: cs) target).zip
        (clusterBoundaries (c :: cs) target).tail := hp
    have hz := List.of_mem_zip hp'
    rw [hbl] at hz
    refine ⟨?_, ?_⟩
    · rcases List.mem_cons.mp hz.1 with h1 | h2
      · exact Or.inl h1
      · exact Or.inr (hrest p.1 h2)
    · exact hrest p.2 hz.2
  · unfold clusterChunks
    rw [hbl]
    simp [List.zip]
  · have hmm : ((clusterChunks (c :: cs) target).map fun p =>
        (⟨fm.dataset, fm.filename, fm.treename, p.1, p.2⟩ : WorkItem)).map
          (fun w => w.entrystop)
        = (clusterChunks (c :: cs) target).map Prod.snd := by
      rw [List.map_map]; rfl
    rw [hmm]
    unfold clusterChunks
    rw [hbl]
    rw [List.map_snd_zip _ _ (by simp)]
    exact hrest_last

/-- Witness for the amended C7 at a concrete cluster-populated
descriptor. -/
theorem cluster_aligned_boundaries_witness :
    ((⟨"ds", "a.root", "Events", 10, some [0, 5, 10]⟩ : FileMeta).clusters
        = some (0 :: [5, 10])) ∧
    ∃ l, FileMeta.chunks ⟨"ds", "a.root", "Events", 10, some [0, 5, 10]⟩ 4 true
        false (fun _ => none) = .ok l ∧
      (∀ w ∈ l, (w.entrystart = 0 ∨ w.entrystart ∈ 0 :: [5, 10]) ∧
        w.entrystop ∈ 0 :: [5, 10]) ∧
      l ≠ [] ∧ (l.map fun w => w.entrystop).getLastD 0 = 10 :=
  ⟨rfl,
    cluster_aligned_boundaries ⟨"ds", "a.root", "Events", 10, some [0, 5, 10]⟩
      0 [5, 10] 4 rfl (by decide) (by decide)⟩

/-- Counterexample to claim C7 as stated: the descriptor with cluster
list `[5, 10]` (monotone, last element `= numentries = 10`) is
cluster-populated, yet the first produced Work Unit starts at boundary
`0`, which is not a member of the cluster list. -/
theorem cluster_aligned_counterexample :
    FileMeta.chunks ⟨"ds", "a.root", "Events", 10, some [5, 10]⟩ 3 true false
        (fun _ => none)
      = .ok [⟨"ds", "a.root", "Events", 0, 5⟩, ⟨"ds", "a.root", "Events", 5, 10⟩] ∧
    ¬ ∀ w ∈ [(⟨"ds", "a.root", "Events", 0, 5⟩ : WorkItem),
             ⟨"ds", "a.root", "Events", 5, 10⟩],
        w.entrystart ∈ [5, 10] ∧ w.entrystop ∈ [5, 10] := by
  decide

/-! ## Retry/skip wrapper, executors, orchestrator, reduction -/

/-- Claim C3 (code behaviour at the failing input): with
`skipbadfiles = True` and `retries = 2`, a non-authentication `OSError`
on the first attempt makes `_work_function` execute the skip-path
`return {"out": out}` immediately — hitting the never-assigned local
`out` (a `NameError`) — even though retries remain and a later attempt
would succeed; by contrast an `OSError` with `skipbadfiles = False`, or
an authentication `OSError`, is re-raised at once, as the claim says. -/
theorem work_function_skip_bug :
    work_function true false 2
        (fun k => if k = 0 then Attempt.ioError false else Attempt.success (7 : Nat))
      = WorkResult.nameErrorOut ∧
    work_function false false 2 (fun _ => Attempt.ioError (γ := Nat) false)
      = WorkResult.raisedOS false ∧
    work_function true false 2 (fun _ => Attempt.ioError (γ := Nat) true)
      = WorkResult.raisedOS true := by
  exact ⟨rfl, rfl, rfl⟩

/-- Claim C4: both in-core executors return the seed accumulator
unchanged on an empty item list, and the trace of items passed to
`function` is empty. -/
theorem executors_empty_items {α β γ : Type} (merge : γ → β → γ)
    (function : α → β) (accumulator : γ) :
    iterative_executor merge [] function accumulator = (accumulator, []) ∧
    futures_executor merge [] function accumulator = (accumulator, []) :=
  ⟨rfl, rfl⟩

/-- Claim C5 (code behaviour at the failing input): on an empty file
set the orchestrator dispatches no Work Unit (empty trace), the executor
returns the seed `None` unchanged, but `run_uproot_job` then subscripts
`wrapped_out["out"]` on `None` and raises `TypeError` instead of
returning the seed. -/
theorem run_uproot_job_empty_fileset :
    run_uproot_job (γ := Nat) (δ := Nat) (fun a b => some (a.getD 0 + b)) []
        100000 false none (fun _ => 0) id
      = (.error "TypeError: NoneType object is not subscriptable", []) := by
  rfl

/-- Claim C6: reducing an empty sequence of accumulator payloads raises
`ValueError("Empty list provided to reduction")` for every compression
level (including `None`); it never returns a default value. -/
theorem reduce_empty_raises {γ π : Type} (clevel : Option Nat) (comp : γ → π)
    (decomp : π → γ) (accfold : List γ → γ → γ) (accplain : List π → π) :
    reduce_call clevel comp decomp accfold accplain []
      = .error "Empty list provided to reduction" := by
  cases clevel <;> rfl

/-! ## Completion handler (claim C8) -/

/-- Unfolding of the handler's main loop iteration on nonempty pending
futures. -/
lemma futuresHandler_cons {γ : Type} (res : Nat → γ) (batch : List Nat)
    (waits : List (List Nat)) (p : Nat) (ps : List Nat) :
    futuresHandler res (batch :: waits) (p :: ps)
      = if ((p :: ps).filter (· ∈ batch)).isEmpty then ⟨[], true, p :: ps⟩
        else
          ⟨((p :: ps).filter (· ∈ batch)).map res
              ++ (futuresHandler res waits ((p :: ps).filter (· ∉ batch))).yielded,
            (futuresHandler res waits ((p :: ps).filter (· ∉ batch))).warnedStall,
            (futuresHandler res waits ((p :: ps).filter (· ∉ batch))).cancelled⟩ := by
  rfl

/-- Claim C8: (i) whenever a wait period elapses with zero completions
among nonempty pending operations, the handler warns, cancels every
remaining operation and ends its result sequence with nothing further
yielded; (ii) in the N-1-prompt / 1-stalled scenario, the handler yields
exactly the N-1 results, warns, cancels the stalled operation, and
terminates. -/
theorem futures_handler_tail_stall {γ : Type} (res : Nat → γ)
    (waits : List (List Nat)) (batch : List Nat) (pending : List Nat)
    (done : List Nat) (stalled : Nat) (hpend : pending ≠ [])
    (hstall : pending.filter (· ∈ batch) = []) (hnot : stalled ∉ done) :
    futuresHandler res (batch :: waits) pending
      = ⟨[], true, pending⟩ ∧
    futuresHandler res [done] (done ++ [stalled])
      = ⟨done.map res, true, [stalled]⟩ := by
  constructor
  · obtain ⟨p, ps, rfl⟩ := List.exists_cons_of_ne_nil hpend
    rw [futuresHandler_cons, hstall]
    rfl
  · rcases done with _ | ⟨d, ds⟩
    · simp only [List.nil_append, List.map_nil]
      rw [futuresHandler_cons]
      simp
    · have hcons : (d :: ds) ++ [stalled] = d :: (ds ++ [stalled]) := rfl
      rw [hcons, futuresHandler_cons]
      have hdone : (d :: (ds ++ [stalled])).filter (· ∈ d :: ds) = d :: ds := by
        rw [← hcons, List.filter_append]
        have h1 : (d :: ds).filter (· ∈ d :: ds) = d :: ds :=
          List.filter_eq_self.mpr (fun a ha => by simpa using ha)
        have h2 : [stalled].filter (· ∈ d :: ds) = [] := by
          simp only [List.filter, decide_eq_true_eq]
          simp [hnot]
        rw [h1, h2, List.append_nil]
      have hrem : (d :: (ds ++ [stalled])).filter (· ∉ d :: ds) = [stalled] := by
        rw [← hcons, List.filter_append]
        have h1 : (d :: ds).filter (· ∉ d :: ds) = [] := by
          rw [List.filter_eq_nil_iff]
          intro a ha
          simp only [List.mem_cons] at ha
          simp
          tauto
        have h2 : [stalled].filter (· ∉ d :: ds) = [stalled] := by
          have hn := hnot
          simp only [List.mem_cons, not_or] at hn
          simp [hn.1, hn.2]
        rw [h1, h2, List.nil_append]
      rw [hdone, hrem]
      have hne : ((d :: ds).isEmpty) = false := rfl
      rw [hne]
      simp only [Bool.false_eq_true, if_false]
      have htail : futuresHandler res [] [stalled]
          = (⟨[], true, [stalled]⟩ : HandlerOut γ) := rfl
      rw [htail, List.append_nil]

/-- Witness for C8 with three prompt results and a fourth stalled
operation. -/
theorem futures_handler_tail_stall_witness :
    ([7] ≠ ([] : List Nat)) ∧
    ([7].filter (· ∈ ([] : List Nat)) = []) ∧
    ((4 : Nat) ∉ [1, 2, 3]) ∧
    futuresHandler (fun f => f * 10) [[]] [7] = ⟨[], true, [7]⟩ ∧
    futuresHandler (fun f => f * 10) [[1, 2, 3]] ([1, 2, 3] ++ [4])
      = ⟨[1, 2, 3].map (fun f => f * 10), true, [4]⟩ := by
  have h := futures_handler_tail_stall (fun f => f * 10) [] [] [7] [1, 2, 3] 4
    (by decide) (by decide) (by decide)
  exact ⟨by decide, by decide, by decide, h.1, h.2⟩

/-! ## Compression round-trip through the reducer (claim C9) -/

/-- Claim C9: if `decomp` inverts `comp` (the contract of the external
pickle + lz4 pair wrapped by `_compress`/`_decompress`), then the
round-trip holds on any accumulator value, and the compressed reducer
applied to a nonempty payload list returns the compression of the merge
of all decompressed leading payloads folded into the decompressed last
payload — so decompressing its output yields exactly that merge. -/
theorem compression_roundtrip {γ π : Type} (comp : γ → π) (decomp : π → γ)
    (hround : ∀ x, decomp (comp x) = x) (accfold : List γ → γ → γ)
    (accplain : List π → π) (clevel : Nat) (x : γ) (items : List π)
    (last : π) (hlast : items.getLast? = some last) :
    decomp (comp x) = x ∧
    reduce_call (some clevel) comp decomp accfold accplain items
      = .ok (comp (accfold (items.dropLast.map decomp) (decomp last))) ∧
    decomp (comp (accfold (items.dropLast.map decomp) (decomp last)))
      = accfold (items.dropLast.map decomp) (decomp last) := by
  refine ⟨hround x, ?_, hround _⟩
  unfold reduce_call
  rw [hlast]

/-- Witness for C9 with a concrete invertible codec on `Nat`. -/
theorem compression_roundtrip_witness :
    ([3, 4].getLast? = some 4) ∧
    ((fun n : Nat => n - 1) ((fun n : Nat => n + 1) 5) = 5) ∧
    reduce_call (some 1) (fun n : Nat => n + 1) (fun n : Nat => n - 1)
        (fun l a => l.foldl (· + ·) a) (fun l => l.foldl (· + ·) 0) [3, 4]
      = .ok ((fun n : Nat => n + 1)
          ((fun (l : List Nat) (a : Nat) => l.foldl (· + ·) a)
            ([3, 4].dropLast.map (fun n : Nat => n - 1))
            ((fun n : Nat => n - 1) 4))) := by
  have h := compression_roundtrip (fun n : Nat => n + 1) (fun n : Nat => n - 1)
    (fun x => by simp) (fun l a => l.foldl (· + ·) a)
    (fun l => l.foldl (· + ·) 0) 1 5 [3, 4] 4 rfl
  exact ⟨rfl, h.1, h.2.1⟩

/-! ## Per-dataset chunk cap (claim C10) -/

/-- Every Work Unit planned from a descriptor carries that descriptor's
dataset. -/
lemma chunks_dataset (fm : FileMeta) (t : Nat) (a dyn : Bool)
    (fb : Nat → Option Nat) (xs : List WorkItem)
    (h : fm.chunks t a dyn fb = .ok xs) : ∀ w ∈ xs, w.dataset = fm.dataset := by
  intro w hw
  cases a <;> cases dyn <;> simp only [FileMeta.chunks] at h
  case false.false | false.true =>
    simp only [Bool.false_and, Bool.false_eq_true, if_false, if_neg,
      Bool.and_false, Except.ok.injEq] at h
    subst h
    simp only [List.mem_map] at hw
    obtain ⟨p, _, rfl⟩ := hw
    rfl
  case true.true => simp at h
  case true.false =>
    simp only [Bool.and_false, Bool.false_eq_true, if_false, if_true,
      Bool.true_and] at h
    cases hcl : fm.clusters with
    | none => rw [hcl] at h; simp at h
    | some cl =>
      rw [hcl] at h
      cases cl with
      | nil => simp at h
      | cons c cs =>
        simp only [Except.ok.injEq] at h
        subst h
        simp only [List.mem_map] at hw
        obtain ⟨p, _, rfl⟩ := hw
        rfl

/-- The `maxchunks` branch keeps, for every dataset `d`, the number of
emitted Work Units with dataset `d` at or below `maxchunks - nchunks d`. -/
lemma chunkGenMax_count (chunksize : Nat) (align : Bool) (m : Nat) :
    ∀ (fs : List FileMeta) (nch : String → Nat) (l : List WorkItem),
      chunkGenMax chunksize align m fs nch = .ok l →
      ∀ d, (l.filter (fun w => w.dataset = d)).length ≤ m - nch d := by
  intro fs
  induction fs with
  | nil =>
    intro nch l h d
    simp only [chunkGenMax, Except.ok.injEq] at h
    subst h
    simp
  | cons fm rest ih =>
    intro nch l h d
    rw [chunkGenMax] at h
    by_cases hskip : m ≤ nch fm.dataset
    · rw [if_pos hskip] at h
      exact ih nch l h d
    · rw [if_neg hskip] at h
      split at h
      · simp at h
      · rename_i xs hx
        split at h
        · simp at h
        · rename_i ys hy
          simp only [Except.ok.injEq] at h
          subst h
          rw [List.filter_append, List.length_append]
          have hall : ∀ w ∈ xs.take (m - nch fm.dataset), w.dataset = fm.dataset :=
            fun w hw => chunks_dataset fm chunksize align false _ xs hx w
              (List.take_subset _ _ hw)
          have hys := ih _ ys hy d
          by_cases hd : d = fm.dataset
          · have h1 : (xs.take (m - nch fm.dataset)).filter
                (fun w => w.dataset = d) = xs.take (m - nch fm.dataset) :=
              List.filter_eq_self.mpr (fun w hw => by simp [hall w hw, hd])
            rw [h1]
            rw [if_pos hd] at hys
            rw [hd] at hys
            have h2 : (xs.take (m - nch fm.dataset)).length ≤ m - nch fm.dataset :=
              List.length_take_le _ _
            rw [hd]
            omega
          · have h1 : (xs.take (m - nch fm.dataset)).filter
                (fun w => w.dataset = d) = [] := by
              rw [List.filter_eq_nil_iff]
              intro w hw
              simp [hall w hw]
              exact fun hc => absurd hc.symm hd
            rw [h1]
            rw [if_neg hd] at hys
            simp only [List.length_nil, Nat.zero_add]
            exact hys

/-- Claim C10: with `maxchunks = m`, the chunk generator ignores the
dynamic-resizing flag and feedback entirely (every chunk is planned with
`dynamic_chunksize=False`), and emits at most `m` Work Units per
dataset. -/
theorem chunk_generator_maxchunks (fileset : List FileMeta) (chunksize : Nat)
    (align : Bool) (m : Nat) (dyn : Bool) (fb : Nat → Option Nat) :
    chunk_generator fileset chunksize align (some m) dyn fb
      = chunk_generator fileset chunksize align (some m) false (fun _ => none) ∧
    ∀ l, chunk_generator fileset chunksize align (some m) dyn fb = .ok l →
      ∀ d, (l.filter (fun w => w.dataset = d)).length ≤ m := by
  refine ⟨rfl, ?_⟩
  intro l h d
  have hc := chunkGenMax_count chunksize align m fileset (fun _ => 0) l h d
  simpa using hc

/-- Witness for C10: two files of one dataset, `chunksize = 2`,
`maxchunks = 2`: the first file's two windows exhaust the dataset cap
and the second file is skipped. -/
theorem chunk_generator_maxchunks_witness :
    (chunk_generator [⟨"d", "a", "t", 5, none⟩, ⟨"d", "b", "t", 5, none⟩] 2 false
        (some 2) true (fun i => some (i + 1))
      = chunk_generator [⟨"d", "a", "t", 5, none⟩, ⟨"d", "b", "t", 5, none⟩] 2 false
        (some 2) false (fun _ => none)) ∧
    (([⟨"d", "a", "t", 0, 3⟩, ⟨"d", "a", "t", 3, 5⟩] : List WorkItem).filter
        (fun w => w.dataset = "d")).length ≤ 2 := by
  have h := chunk_generator_maxchunks
    [⟨"d", "a", "t", 5, none⟩, ⟨"d", "b", "t", 5, none⟩] 2 false 2 true
    (fun i => some (i + 1))
  exact ⟨h.1, h.2 [⟨"d", "a", "t", 0, 3⟩, ⟨"d", "a", "t", 3, 5⟩] (by decide) "d"⟩

end Coffea
